import Mathlib

/-!
Verification of the DOCX placeholder-substitution engine
(`internal/processor/docx.go` and its HTTP-handler callers).

The Go code is shallowly embedded: document contents are `List Char`
(Go iterates strings rune by rune; all inputs of interest are ASCII, so
rune index and byte index coincide), `float64` arithmetic is modelled
exactly over `ℚ`, and the Go loops are realised as structurally
recursive functions, with an explicit fuel argument where the Go loop
advances an index (the initial fuel is always large enough that it
never runs out before the loop's own exit condition fires).
-/

/-- Model of Go `strings.Index` (restricted to rune = byte inputs):
first index at which `pat` occurs in `hay`, `none` for Go's `-1`.
`strings.Index` of the empty pattern is `0`. -/
def strIndex : List Char → List Char → Option Nat
  | [], pat => if pat.isEmpty then some 0 else none
  | c :: t, pat =>
    if pat.isPrefixOf (c :: t) then some 0
    else (strIndex t pat).map (· + 1)

/-- Model of Go `strings.LastIndex`: largest index at which `pat`
occurs in `hay`, `-1` if it does not occur. -/
def strLastIndex (hay pat : List Char) : Int :=
  match (((List.range (hay.length + 1)).filter
      (fun i => pat.isPrefixOf (hay.drop i)))).getLast? with
  | some i => (i : Int)
  | none => -1

/-- Model of Go `strings.Count` (non-overlapping occurrences; for an
empty pattern Go returns rune count + 1). -/
def strCountAux : Nat → List Char → List Char → Nat
  | 0, _, _ => 0
  | fuel + 1, hay, pat =>
    match strIndex hay pat with
    | none => 0
    | some i => 1 + strCountAux fuel (hay.drop (i + pat.length)) pat

def strCount (hay pat : List Char) : Nat :=
  if pat.isEmpty then hay.length + 1
  else strCountAux (hay.length + 1) hay pat

/-- Model of Go `strings.Contains`. -/
def strContains (hay pat : List Char) : Bool :=
  (strIndex hay pat).isSome

/-- Model of `removeXMLTags` (docx.go 763-778): drop everything between
`<` and `>` (the brackets themselves included), keep the rest. -/
def removeXMLTagsAux : Bool → List Char → List Char
  | _, [] => []
  | inTag, c :: t =>
    if c = '<' then removeXMLTagsAux true t
    else if c = '>' then removeXMLTagsAux false t
    else if inTag then removeXMLTagsAux true t
    else c :: removeXMLTagsAux false t

def removeXMLTags (content : List Char) : List Char :=
  removeXMLTagsAux false content

/-- Go `float64(r - '0')` on a rune. -/
def twipsDigit (r : Char) : ℚ := ((r.toNat : ℤ) - 48 : ℤ)

/-- The accumulation loop of `parseFloatFromTwips` (docx.go 614-627):
state is (result, decimal, afterDecimal). -/
def twipsFold : List Char → ℚ × ℚ × Bool → ℚ
  | [], st => st.1
  | r :: rest, (result, decimal, afterDecimal) =>
    if r = '.' then twipsFold rest (result, decimal, true)
    else if afterDecimal then
      twipsFold rest (result + twipsDigit r / (decimal * 10), decimal * 10, true)
    else
      twipsFold rest (result * 10 + twipsDigit r, decimal, false)

/-- Model of `parseFloatFromTwips` (docx.go 590-631): strip every
character that is not a digit or a dot, accumulate the digits, divide
by 20 (twentieths of a point to points). -/
def parseFloatFromTwips (s : List Char) : ℚ :=
  if s.isEmpty then 0
  else if (s.filter (fun r => r.isDigit || r == '.')).isEmpty then 0
  else twipsFold (s.filter (fun r => r.isDigit || r == '.')) (0, 1, false) / 20

structure DocumentLayout where
  PageWidth : ℚ
  PageHeight : ℚ
  LeftMargin : ℚ
  RightMargin : ℚ
  TopMargin : ℚ
  BottomMargin : ℚ
  LineHeight : ℚ
  Landscape : Bool
deriving DecidableEq, Repr

/-- Model of `getDefaultLayout` (docx.go 482-492); 14.4 = 72/5. -/
def getDefaultLayout : DocumentLayout :=
  { PageWidth := 612, PageHeight := 792, LeftMargin := 72,
    RightMargin := 72, TopMargin := 72, BottomMargin := 72,
    LineHeight := 72 / 5, Landscape := false }

def sectOpenPat : List Char := "<w:sectPr".toList
def sectClosePat : List Char := "</w:sectPr>".toList
def pgSzPat : List Char := "<w:pgSz".toList
def pgMarPat : List Char := "<w:pgMar".toList
def selfClosePat : List Char := "/>".toList
def quotePat : List Char := "\"".toList
def attrW : List Char := "w:w=\"".toList
def attrH : List Char := "w:h=\"".toList
def attrLeft : List Char := "w:left=\"".toList
def attrRight : List Char := "w:right=\"".toList
def attrTop : List Char := "w:top=\"".toList
def attrBottom : List Char := "w:bottom=\"".toList
def attrOrient : List Char := "w:orient=\"".toList
def landscapeLit : List Char := "landscape".toList

/-- The attribute-extraction pattern of `parseDocumentLayout`: find
`attrPat` (which ends in `="`), then the text up to the next quote.
`none` when the attribute or its closing quote is absent. -/
def attrValue (tag attrPat : List Char) : Option (List Char) :=
  match strIndex tag attrPat with
  | none => none
  | some a =>
    match strIndex (tag.drop (a + attrPat.length)) quotePat with
    | none => none
    | some b => some ((tag.drop (a + attrPat.length)).take b)

/-- One guarded update of a layout field: replace `cur` by the parsed
value only when the attribute is present and parses to a positive
number (docx.go 515, 525, 551). -/
def applyTwipsAttr (tag attrPat : List Char) (cur : ℚ) : ℚ :=
  match attrValue tag attrPat with
  | none => cur
  | some s => if 0 < parseFloatFromTwips s then parseFloatFromTwips s else cur

/-- The section-properties region used by `parseDocumentLayout`
(docx.go 499-502): from the first `<w:sectPr` up to (excluding) the
first following `</w:sectPr>`. -/
def sectContentOf (content : List Char) : Option (List Char) :=
  match strIndex content sectOpenPat with
  | none => none
  | some s =>
    match strIndex (content.drop s) sectClosePat with
    | none => none
    | some e => some ((content.drop s).take e)

/-- A self-closing tag slice: from `openPat` up to (excluding) the
next `/>` (docx.go 505-508, 534-537, 561-564). -/
def tagSlice (sc openPat : List Char) : Option (List Char) :=
  match strIndex sc openPat with
  | none => none
  | some p =>
    match strIndex (sc.drop p) selfClosePat with
    | none => none
    | some q => some ((sc.drop p).take q)

/-- The `w:pgSz` width/height updates of `parseDocumentLayout`
(docx.go 505-531). -/
def applyPgSz (sc : List Char) (L : DocumentLayout) : DocumentLayout :=
  match tagSlice sc pgSzPat with
  | none => L
  | some tag =>
    { L with PageWidth := applyTwipsAttr tag attrW L.PageWidth,
             PageHeight := applyTwipsAttr tag attrH L.PageHeight }

/-- The `w:pgMar` margin updates of `parseDocumentLayout`
(docx.go 534-558); the Go code iterates a map of four independent
attribute/field pairs, realised here as four updates. -/
def applyPgMar (sc : List Char) (L : DocumentLayout) : DocumentLayout :=
  match tagSlice sc pgMarPat with
  | none => L
  | some tag =>
    { L with LeftMargin := applyTwipsAttr tag attrLeft L.LeftMargin,
             RightMargin := applyTwipsAttr tag attrRight L.RightMargin,
             TopMargin := applyTwipsAttr tag attrTop L.TopMargin,
             BottomMargin := applyTwipsAttr tag attrBottom L.BottomMargin }

/-- The explicit `w:orient` handling of `parseDocumentLayout`
(docx.go 560-576); the Go code re-extracts the `w:pgSz` tag. -/
def applyOrientAttr (sc : List Char) (L : DocumentLayout) : DocumentLayout :=
  match tagSlice sc pgSzPat with
  | none => L
  | some tag =>
    match attrValue tag attrOrient with
    | none => L
    | some o => { L with Landscape := o == landscapeLit }

/-- Body of `parseDocumentLayout`'s `sectEnd != -1` branch
(docx.go 503-577): page size, margins, then the explicit `w:orient`
attribute. -/
def layoutFromSect (sc : List Char) : DocumentLayout :=
  applyOrientAttr sc (applyPgMar sc (applyPgSz sc getDefaultLayout))

/-- `parseDocumentLayout` before the final width/height inference:
defaults when no section block is found (docx.go 495-578). -/
def parseDocumentLayoutSect (content : List Char) : DocumentLayout :=
  match sectContentOf content with
  | none => getDefaultLayout
  | some sc => layoutFromSect sc

/-- The final orientation inference (docx.go 580-584): only when the
flag is not already landscape. -/
def orientByRatio (L : DocumentLayout) : DocumentLayout :=
  if 0 < L.PageWidth ∧ 0 < L.PageHeight ∧ L.Landscape = false then
    { L with Landscape := decide (L.PageHeight < L.PageWidth) }
  else L

/-- Model of `parseDocumentLayout` (docx.go 495-587). -/
def parseDocumentLayout (content : List Char) : DocumentLayout :=
  orientByRatio (parseDocumentLayoutSect content)

def openBraces : List Char := ['{', '{']
def closeBraces : List Char := ['}', '}']

/-- The token-scanning loop of `ExtractPlaceholdersWithPositions`
(docx.go 383-430): find the next `{{` from `cleanStart`, then the next
`}}` after it; the token spans [startIndex, endIndex) and scanning
resumes at `endIndex`.  Every iteration advances `cleanStart` by at
least 2, so fuel `clean.length + 1` never runs out first. -/
def scanAux : Nat → List Char → Nat → List (Nat × Nat)
  | 0, _, _ => []
  | fuel + 1, clean, cleanStart =>
    match strIndex (clean.drop cleanStart) openBraces with
    | none => []
    | some i =>
      match strIndex (clean.drop (cleanStart + i)) closeBraces with
      | none => []
      | some j =>
        (cleanStart + i, cleanStart + i + j + 2) ::
          scanAux fuel clean (cleanStart + i + j + 2)

def scanTokens (clean : List Char) : List (Nat × Nat) :=
  scanAux (clean.length + 1) clean 0

/-- Model of `calculateLineColumn` (docx.go 435-449): 1-based line and
column of `pos` in `text`, lines delimited by newline characters. -/
def calculateLineColumnAux : List Char → Nat → Nat × Nat → Nat × Nat
  | _, 0, lc => lc
  | [], _ + 1, lc => lc
  | c :: t, n + 1, lc =>
    if c = '\n' then calculateLineColumnAux t n (lc.1 + 1, 1)
    else calculateLineColumnAux t n (lc.1, lc.2 + 1)

def calculateLineColumn (text : List Char) (pos : Nat) : Nat × Nat :=
  calculateLineColumnAux text pos (1, 1)

/-- Model of `findXMLPositions` (docx.go 451-479): re-walk the raw XML
tracking the clean-text position; `-1` stands for "not found" exactly
as in the Go code. -/
def findXMLPositionsAux :
    List Char → Nat → Nat → Bool → Int → Nat → Nat → Int × Int
  | [], _, _, _, xmlStart, _, _ => (xmlStart, -1)
  | c :: t, xmlPos, cleanPos, inTag, xmlStart, cleanStart, cleanEnd =>
    if c = '<' then
      findXMLPositionsAux t (xmlPos + 1) cleanPos true xmlStart cleanStart cleanEnd
    else if c = '>' then
      findXMLPositionsAux t (xmlPos + 1) cleanPos false xmlStart cleanStart cleanEnd
    else if inTag then
      findXMLPositionsAux t (xmlPos + 1) cleanPos true xmlStart cleanStart cleanEnd
    else
      let xmlStart' :=
        if cleanPos = cleanStart ∧ xmlStart = -1 then (xmlPos : Int) else xmlStart
      if (cleanPos : Int) = (cleanEnd : Int) - 1 then (xmlStart', (xmlPos : Int) + 1)
      else findXMLPositionsAux t (xmlPos + 1) (cleanPos + 1) false xmlStart' cleanStart cleanEnd

def findXMLPositions (xml : List Char) (cleanStart cleanEnd : Nat) : Int × Int :=
  findXMLPositionsAux xml 0 0 false (-1) cleanStart cleanEnd

structure ParagraphInfo where
  XMLPosition : Nat
  LineNumber : Nat
  X : ℚ
  Y : ℚ
  Width : ℚ
  IsInTable : Bool
  TableRow : Nat
  TableCol : Nat
  ParagraphId : String
deriving DecidableEq, Repr

def pTagPat : List Char := "<w:p ".toList
def gtPat : List Char := ">".toList
def tblOpenPat : List Char := "<w:tbl>".toList
def tblClosePat : List Char := "</w:tbl>".toList
def trPat : List Char := "<w:tr>".toList
def tcPat : List Char := "<w:tc>".toList

/-- The paragraph-counting loop of `findContainingParagraph`
(docx.go 670-695): count `<w:p ` occurrences that begin strictly
before `xmlPos`; the paragraph id becomes `p<count>` whenever a `>`
follows the match.  `searchPos` advances by at least 1 per iteration,
so fuel `content.length + 1` never runs out first. -/
def paraLoop : Nat → List Char → Nat → Nat → Nat → String → Nat × String
  | 0, _, _, _, count, pid => (count, pid)
  | fuel + 1, content, xmlPos, searchPos, count, pid =>
    if searchPos < xmlPos ∧ searchPos < content.length then
      match strIndex (content.drop searchPos) pTagPat with
      | none => (count, pid)
      | some p0 =>
        if searchPos + p0 < xmlPos then
          let pid' :=
            match strIndex (content.drop (searchPos + p0)) gtPat with
            | none => pid
            | some _ => "p" ++ toString (count + 1)
          paraLoop fuel content xmlPos (searchPos + p0 + 1) (count + 1) pid'
        else (count, pid)
    else (count, pid)

/-- Model of `findContainingParagraph` (docx.go 657-715). -/
def findContainingParagraph (content : List Char) (xmlPos : Nat) : ParagraphInfo :=
  let cp := paraLoop (content.length + 1) content xmlPos 0 0 "p1"
  let line := if cp.1 < 1 then 1 else cp.1
  let tableStart := strLastIndex (content.take xmlPos) tblOpenPat
  let tableEnd := strLastIndex (content.take xmlPos) tblClosePat
  if tableEnd < tableStart then
    { XMLPosition := xmlPos, LineNumber := line, X := 0, Y := 0, Width := 0,
      IsInTable := true,
      TableRow := strCount ((content.take xmlPos).drop tableStart.toNat) trPat,
      TableCol := strCount ((content.take xmlPos).drop tableStart.toNat) tcPat % 10,
      ParagraphId := cp.2 }
  else
    { XMLPosition := xmlPos, LineNumber := line, X := 0, Y := 0, Width := 0,
      IsInTable := false, TableRow := 0, TableCol := 0, ParagraphId := cp.2 }

/-- Go's float64-to-int conversion truncates toward zero. -/
def truncQ (q : ℚ) : ℤ := if 0 ≤ q then ⌊q⌋ else ⌈q⌉

/-- Model of `calculateCoordinates` (docx.go 634-654): returns
(x, y, pageNumber, paragraphId). -/
def calculateCoordinates (xmlContent : List Char) (xmlPos : Nat)
    (layout : DocumentLayout) : ℚ × ℚ × ℤ × String :=
  let info := findContainingParagraph xmlContent xmlPos
  let y := layout.TopMargin + ((info.LineNumber : ℚ) - 1) * layout.LineHeight
  let x := layout.LeftMargin + info.X
  let pn0 := truncQ (y / layout.PageHeight) + 1
  let pageNumber := if pn0 < 1 then 1 else pn0
  (x, y - ((pageNumber : ℚ) - 1) * layout.PageHeight, pageNumber, info.ParagraphId)

/-- Model of `estimateTextWidth` (docx.go 718-726); 0.6 = 3/5. -/
def estimateTextWidth (text : List Char) (fontSize : ℚ) : ℚ :=
  (if fontSize ≤ 0 then (12 : ℚ) else fontSize) * (3 / 5) * (text.length : ℚ)

structure PlaceholderPosition where
  Placeholder : List Char
  StartPos : Nat
  EndPos : Nat
  Line : Nat
  Column : Nat
  XMLStartPos : Int
  XMLEndPos : Int
  X : ℚ
  Y : ℚ
  Width : ℚ
  Height : ℚ
  PageNumber : ℤ
  ParagraphId : String
deriving DecidableEq, Repr

/-- Model of `ExtractPlaceholdersWithPositions` (docx.go 360-433) on a
given `document.xml` content.  The Go code passes the (found)
`xmlStartPos` to `calculateCoordinates`; `.toNat` realises that found
case (the Go code would slice with a negative index otherwise). -/
def extractPlaceholdersWithPositions (content : List Char) : List PlaceholderPosition :=
  let cleanText := removeXMLTags content
  let layout := parseDocumentLayout content
  (scanTokens cleanText).map (fun se =>
    let ph := (cleanText.drop se.1).take (se.2 - se.1)
    let lc := calculateLineColumn cleanText se.1
    let xp := findXMLPositions content se.1 se.2
    let coord := calculateCoordinates content xp.1.toNat layout
    { Placeholder := ph, StartPos := se.1, EndPos := se.2,
      Line := lc.1, Column := lc.2,
      XMLStartPos := xp.1, XMLEndPos := xp.2,
      X := coord.1, Y := coord.2.1,
      Width := estimateTextWidth ph 12, Height := 12 * (6 / 5),
      PageNumber := coord.2.2.1, ParagraphId := coord.2.2.2 })

/-- The deduplication loop of `ExtractPlaceholders` (docx.go 332-340):
a `seen` set plus an output slice, keeping first occurrences. -/
def dedupGo : List (List Char) → List (List Char) → List (List Char) → List (List Char)
  | [], acc, _ => acc
  | p :: rest, acc, seen =>
    if p ∈ seen then dedupGo rest acc seen
    else dedupGo rest (acc ++ [p]) (p :: seen)

/-- Model of `ExtractPlaceholders` (docx.go 323-344). -/
def extractPlaceholders (content : List Char) : List (List Char) :=
  dedupGo ((extractPlaceholdersWithPositions content).map (·.Placeholder)) [] []

/-- Deduplication as the spec states it: first-occurrence order,
duplicates removed (reference definition for the correctness claim). -/
def specDedupFirstOccurrence (l : List (List Char)) : List (List Char) :=
  l.foldl (fun acc x => if x ∈ acc then acc else acc ++ [x]) []

/-- The lookahead loop of `checkXMLSafeMatch` (docx.go 203-242).
State: `pos` scans the content, `idx` counts matched placeholder
characters, `inTag` tracks `<`/`>`.  After every advance the loop
abandons the attempt (returning `(false, startPos)`) once
`pos - startPos` exceeds ten times the placeholder length.  `pos`
advances by 1 per iteration, so fuel `content.length + 1` never runs
out before the loop's own exit. -/
def checkAux : Nat → List Char → List Char → Nat → Nat → Nat → Bool → Bool × Nat
  | 0, _, ph, _, pos, idx, _ => (idx == ph.length, pos)
  | fuel + 1, content, ph, startPos, pos, idx, inTag =>
    if h : pos < content.length ∧ idx < ph.length then
      if content.get ⟨pos, h.1⟩ = '<' then
        if ph.length * 10 < pos + 1 - startPos then (false, startPos)
        else checkAux fuel content ph startPos (pos + 1) idx true
      else if content.get ⟨pos, h.1⟩ = '>' then
        if ph.length * 10 < pos + 1 - startPos then (false, startPos)
        else checkAux fuel content ph startPos (pos + 1) idx false
      else if inTag then
        if ph.length * 10 < pos + 1 - startPos then (false, startPos)
        else checkAux fuel content ph startPos (pos + 1) idx inTag
      else if content.get ⟨pos, h.1⟩ = ph.get ⟨idx, h.2⟩ then
        if ph.length * 10 < pos + 1 - startPos then (false, startPos)
        else checkAux fuel content ph startPos (pos + 1) (idx + 1) inTag
      else (false, startPos)
    else (idx == ph.length, pos)

/-- Model of `checkXMLSafeMatch` (docx.go 203-242). -/
def checkXMLSafeMatch (content : List Char) (startPos : Nat) (ph : List Char) :
    Bool × Nat :=
  if content.length ≤ startPos then (false, startPos)
  else checkAux (content.length + 1) content ph startPos startPos 0 false

/-- The scan loop of `replaceXMLSafeSlow` (docx.go 182-197): on a
match, emit the value and jump to the match end; otherwise copy one
character.  `i` advances by at least 1 per iteration (a successful
match of a non-empty placeholder consumes at least one character), so
fuel `content.length + 1` never runs out first. -/
def rxsAux : Nat → List Char → List Char → List Char → Nat → List Char
  | 0, _, _, _, _ => []
  | fuel + 1, content, ph, v, i =>
    if h : i < content.length then
      if (checkXMLSafeMatch content i ph).1 then
        v ++ rxsAux fuel content ph v (checkXMLSafeMatch content i ph).2
      else content.get ⟨i, h⟩ :: rxsAux fuel content ph v (i + 1)
    else []

/-- Model of `replaceXMLSafeSlow` (docx.go 173-200). -/
def replaceXMLSafeSlow (content ph v : List Char) : List Char :=
  if ph.isEmpty then content
  else rxsAux (content.length + 1) content ph v 0

/-- Model of Go `strings.ReplaceAll`: replace the leftmost
non-overlapping occurrences; an empty pattern inserts the replacement
before every rune and at the end. -/
def replaceAllAux : Nat → List Char → List Char → List Char → List Char
  | 0, s, _, _ => s
  | fuel + 1, s, pat, rep =>
    match s with
    | [] => []
    | c :: t =>
      if pat.isPrefixOf (c :: t) then
        rep ++ replaceAllAux fuel ((c :: t).drop pat.length) pat rep
      else c :: replaceAllAux fuel t pat rep

def replaceAll (s pat rep : List Char) : List Char :=
  if pat.isEmpty then rep ++ (s.map (fun c => c :: rep)).flatten
  else replaceAllAux (s.length + 1) s pat rep

/-- Model of `replaceWithXMLHandling` (docx.go 153-170): the direct
path (verbatim replace-all) when the placeholder occurs as-is,
otherwise the tag-aware path. -/
def replaceWithXMLHandling (content ph v : List Char) : List Char :=
  if strContains content ph then replaceAll content ph v
  else replaceXMLSafeSlow content ph v

/-- Go `path/filepath.Clean` on a relative slash-path, modelled on the
list of path segments: drop empty and `.` segments, let `..` pop the
previous segment, and keep leading `..`s. -/
def cleanSegsAux : List String → List String → List String
  | [], stack => stack.reverse
  | s :: rest, stack =>
    if s = "" ∨ s = "." then cleanSegsAux rest stack
    else if s = ".." then
      match stack with
      | [] => cleanSegsAux rest [".."]
      | top :: stack' =>
        if top = ".." then cleanSegsAux rest (".." :: top :: stack')
        else cleanSegsAux rest stack'
    else cleanSegsAux rest (s :: stack)

def cleanSegs (segs : List String) : List String := cleanSegsAux segs []

/-- The path `extractFile` (docx.go 96-120) writes to:
`filepath.Join(dp.tempDir, file.Name)`.  The function performs no
containment check of any kind — it creates the parent directories of
this path and writes the entry bytes there. -/
def extractFileTarget (tempDirSegs nameSegs : List String) : List String :=
  cleanSegs (tempDirSegs ++ nameSegs)

/-- A target path stays inside the workspace root exactly when the
root's segments are a prefix of the cleaned target's segments. -/
def insideRoot (rootSegs target : List String) : Bool :=
  rootSegs.isPrefixOf target

/-- Control flow of `UnzipDocx` (docx.go 66-94) as far as the temp
directory is concerned: `zip.OpenReader` failing happens before
`os.MkdirAll(dp.tempDir, ...)`; an entry failing to extract happens
after.  Result: (call succeeded, temp directory exists on return). -/
def unzipDocx (openOk : Bool) (entryOk : List Bool) : Bool × Bool :=
  if openOk then (entryOk.all id, true) else (false, false)

/-- Control flow of the handler `ProcessDocument` with respect to the
temp directory: `defer proc.Cleanup()` is registered only after
`UnzipDocx()` has returned without error; when unzipping fails the
handler returns immediately, with no cleanup registered.  Every path
after the defer (placeholder extraction, replacement, rezip — whether
they succeed, modelled by `_laterOk`, or not) runs the deferred
`Cleanup`, which removes the directory.  Result: does the temp
directory still exist when the handler returns? -/
def processDocumentLeavesTempDir (openOk : Bool) (entryOk : List Bool)
    (_laterOk : Bool) : Bool :=
  let u := unzipDocx openOk entryOk
  if u.1 then false
  else u.2

/-! Concrete inputs used by the claim theorems below. -/

def sectOneEx : List Char := "<w:sectPr><w:pgSz w:w=\"20000\" w:h=\"10000\"/></w:sectPr>".toList
def sectTwoEx : List Char := "<w:sectPr><w:pgSz w:w=\"15840\" w:h=\"12240\"/></w:sectPr>".toList
def sectPortraitEx : List Char :=
  "<w:sectPr><w:pgSz w:w=\"15840\" w:h=\"12240\" w:orient=\"portrait\"/></w:sectPr>".toList
def paraThreeEx : List Char := "<w:p 1/><w:p 2/><w:p 3/>x".toList
def nestedBracesEx : List Char := ['{', '{', 'a', '{', '{', 'b', '}', '}']
def dupTokensEx : List Char :=
  ['{', '{', 'a', '}', '}', ' ', '{', '{', 'b', '}', '}', ' ', '{', '{', 'a', '}', '}']
def tokenAEx : List Char := ['{', '{', 'a', '}', '}']
def tokenBEx : List Char := ['{', '{', 'b', '}', '}']
def singleTokenEx : List Char := ['{', '{', 'x', '}', '}']

/-- All numeric fields of a layout are strictly positive. -/
def layoutPositive (L : DocumentLayout) : Prop :=
  0 < L.PageWidth ∧ 0 < L.PageHeight ∧ 0 < L.LeftMargin ∧
  0 < L.RightMargin ∧ 0 < L.TopMargin ∧ 0 < L.BottomMargin ∧
  0 < L.LineHeight

/-- The spec's coordinate formula `y_raw = topMargin + (line-1)*lineHeight`
(reference definition for the coordinate claim). -/
def specYRaw (xml : List Char) (pos : Nat) (L : DocumentLayout) : ℚ :=
  L.TopMargin + (((findContainingParagraph xml pos).LineNumber : ℚ) - 1) * L.LineHeight

/-- The spec's page formula `page = floor(y_raw / pageHeight) + 1`,
clamped to a minimum of 1 (reference definition). -/
def specPageOf (xml : List Char) (pos : Nat) (L : DocumentLayout) : ℤ :=
  max 1 (⌊specYRaw xml pos L / L.PageHeight⌋ + 1)

/-! ## Theorems -/

theorem isPrefixOf_append {p xs ys : List Char}
    (h : p.isPrefixOf xs = true) : p.isPrefixOf (xs ++ ys) = true := by
  rw [ List.isPrefixOf_iff_prefix] at h ⊢
  exact h.trans (List.prefix_append xs ys)

theorem prefix_of_prefix_append {p xs ys : List Char}
    (hlen : p.length ≤ xs.length) (h : p <+: xs ++ ys) : p <+: xs := by
  induction p generalizing xs with
  | nil => exact List.nil_prefix
  | cons a p' ih =>
    cases xs with
    | nil => simp at hlen
    | cons b xs' =>
      rw [List.cons_append, List.cons_prefix_cons] at h
      rw [List.cons_prefix_cons]
      exact ⟨h.1, ih (by simpa using hlen) h.2⟩

theorem isPrefixOf_append_left {p xs ys : List Char}
    (hlen : p.length ≤ xs.length)
    (h : p.isPrefixOf (xs ++ ys) = true) : p.isPrefixOf xs = true := by
  rw [ List.isPrefixOf_iff_prefix] at h ⊢
  exact prefix_of_prefix_append hlen h

theorem isPrefixOf_length_le {p xs : List Char}
    (h : p.isPrefixOf xs = true) : p.length ≤ xs.length := by
  rw [ List.isPrefixOf_iff_prefix] at h
  exact h.length_le

theorem strIndex_isPrefixOf {hay pat : List Char} {i : Nat}
    (h : strIndex hay pat = some i) :
    pat.isPrefixOf (hay.drop i) = true := by
  induction hay generalizing i with
  | nil =>
    simp only [strIndex] at h
    split at h
    · cases h
      simpa [ List.isEmpty_iff] using ‹pat.isEmpty = true›
    · cases h
  | cons c t ih =>
    simp only [strIndex] at h
    split at h
    · cases h; simpa using ‹pat.isPrefixOf (c :: t) = true›
    · match hj : strIndex t pat with
      | none => rw [hj] at h; cases h
      | some j =>
        rw [hj] at h
        simp at h
        subst h
        simpa using ih hj

theorem strIndex_min {hay pat : List Char} {i : Nat}
    (h : strIndex hay pat = some i) :
    ∀ j, j < i → pat.isPrefixOf (hay.drop j) = false := by
  induction hay generalizing i with
  | nil =>
    simp only [strIndex] at h
    split at h
    · cases h; intro j hj; omega
    · cases h
  | cons c t ih =>
    simp only [strIndex] at h
    split at h
    · cases h; intro j hj; omega
    · match hj : strIndex t pat with
      | none => rw [hj] at h; cases h
      | some j0 =>
        rw [hj] at h
        simp at h
        subst h
        intro j hlt
        cases j with
        | zero =>
          simpa using Bool.eq_false_iff.mpr
            (fun hc => ‹¬pat.isPrefixOf (c :: t) = true› hc)
        | succ j' =>
          simpa using ih hj j' (Nat.lt_of_succ_lt_succ hlt)

theorem strIndex_le {hay pat : List Char} {i : Nat}
    (h : strIndex hay pat = some i) : i + pat.length ≤ hay.length := by
  induction hay generalizing i with
  | nil =>
    simp only [strIndex] at h
    split at h
    · cases h; simpa [ List.isEmpty_iff] using ‹pat.isEmpty = true›
    · cases h
  | cons c t ih =>
    simp only [strIndex] at h
    split at h
    · cases h
      simpa using isPrefixOf_length_le ‹pat.isPrefixOf (c :: t) = true›
    · match hj : strIndex t pat with
      | none => rw [hj] at h; cases h
      | some j =>
        rw [hj] at h
        simp at h
        subst h
        have := ih hj
        simp only [List.length_cons]
        omega

theorem strIndex_append {hay ys pat : List Char} {i : Nat}
    (h : strIndex hay pat = some i) :
    strIndex (hay ++ ys) pat = some i := by
  induction hay generalizing i with
  | nil =>
    simp only [strIndex] at h
    split at h
    · cases h
      have hpe : pat = [] := by
        simpa [ List.isEmpty_iff] using ‹pat.isEmpty = true›
      subst hpe
      cases ys with
      | nil => simp [strIndex]
      | cons y t => simp [strIndex, List.isPrefixOf]
    · cases h
  | cons c t ih =>
    simp only [strIndex] at h
    split at h
    · cases h
      have hp : pat.isPrefixOf ((c :: t) ++ ys) = true :=
        isPrefixOf_append ‹pat.isPrefixOf (c :: t) = true›
      rw [List.cons_append] at hp
      simp only [List.cons_append, strIndex, List.append_eq]
      rw [if_pos hp]
    · match hj : strIndex t pat with
      | none => rw [hj] at h; cases h
      | some j =>
        rw [hj] at h
        simp at h
        subst h
        have hlen : pat.length ≤ (c :: t).length := by
          have := strIndex_le hj
          simp only [List.length_cons]
          omega
        have hnp : pat.isPrefixOf (c :: (t ++ ys)) = false := by
          rw [Bool.eq_false_iff]
          intro hc
          rw [← List.cons_append] at hc
          exact ‹¬pat.isPrefixOf (c :: t) = true›
            (isPrefixOf_append_left hlen hc)
        simp only [List.cons_append, strIndex, List.append_eq, hnp]
        simp [ih hj]

theorem twipsDigit_nonneg {r : Char} (h : r.isDigit = true) : 0 ≤ twipsDigit r := by
  simp only [Char.isDigit, Bool.and_eq_true, decide_eq_true_eq] at h
  unfold twipsDigit
  have h48 : (48 : ℤ) ≤ (r.toNat : ℤ) := by exact_mod_cast h.1
  have : (0 : ℤ) ≤ (r.toNat : ℤ) - 48 := by omega
  exact_mod_cast this

theorem twipsFold_nonneg (l : List Char) :
    ∀ (res dec : ℚ) (b : Bool),
      (∀ r ∈ l, r.isDigit = true ∨ r = '.') → 0 ≤ res → 0 < dec →
      0 ≤ twipsFold l (res, dec, b) := by
  induction l with
  | nil =>
    intro res dec b _ hres _
    simpa [twipsFold] using hres
  | cons r rest ih =>
    intro res dec b hmem hres hdec
    have hr := hmem r (by simp)
    have hrest : ∀ x ∈ rest, x.isDigit = true ∨ x = '.' :=
      fun x hx => hmem x (by simp [hx])
    by_cases hdot : r = '.'
    · simp only [twipsFold, if_pos hdot]
      exact ih res dec true hrest hres hdec
    · have hdig : r.isDigit = true := hr.resolve_right hdot
      have hd0 := twipsDigit_nonneg hdig
      simp only [twipsFold, if_neg hdot]
      cases b with
      | true =>
        simp only [if_pos rfl]
        exact ih _ _ true hrest
          (add_nonneg hres (div_nonneg hd0 (by positivity))) (by positivity)
      | false =>
        simp only [Bool.false_eq_true, if_neg (by simp : ¬False)]
        exact ih _ _ false hrest
          (add_nonneg (by linarith) hd0) hdec

theorem parseFloatFromTwips_nonneg (s : List Char) : 0 ≤ parseFloatFromTwips s := by
  unfold parseFloatFromTwips
  split
  · exact le_refl 0
  · split
    · exact le_refl 0
    · apply div_nonneg _ (by norm_num)
      apply twipsFold_nonneg _ 0 1 false _ le_rfl one_pos
      intro r hr
      have hm := List.mem_filter.mp hr
      rcases (Bool.or_eq_true _ _).mp hm.2 with h | h
      · exact Or.inl h
      · exact Or.inr (by simpa using h)

theorem applyTwipsAttr_pos {tag a : List Char} {cur : ℚ} (h : 0 < cur) :
    0 < applyTwipsAttr tag a cur := by
  unfold applyTwipsAttr
  cases attrValue tag a with
  | none => exact h
  | some v =>
    dsimp only
    split
    · assumption
    · exact h

theorem getDefaultLayout_pos : layoutPositive getDefaultLayout := by
  unfold layoutPositive getDefaultLayout
  norm_num

theorem applyPgSz_pos (sc : List Char) {L : DocumentLayout}
    (h : layoutPositive L) : layoutPositive (applyPgSz sc L) := by
  unfold applyPgSz
  cases tagSlice sc pgSzPat with
  | none => exact h
  | some tag =>
    exact ⟨applyTwipsAttr_pos h.1, applyTwipsAttr_pos h.2.1,
      h.2.2.1, h.2.2.2.1, h.2.2.2.2.1, h.2.2.2.2.2.1, h.2.2.2.2.2.2⟩

theorem applyPgMar_pos (sc : List Char) {L : DocumentLayout}
    (h : layoutPositive L) : layoutPositive (applyPgMar sc L) := by
  unfold applyPgMar
  cases tagSlice sc pgMarPat with
  | none => exact h
  | some tag =>
    exact ⟨h.1, h.2.1, applyTwipsAttr_pos h.2.2.1, applyTwipsAttr_pos h.2.2.2.1,
      applyTwipsAttr_pos h.2.2.2.2.1, applyTwipsAttr_pos h.2.2.2.2.2.1,
      h.2.2.2.2.2.2⟩

theorem applyOrientAttr_pos (sc : List Char) {L : DocumentLayout}
    (h : layoutPositive L) : layoutPositive (applyOrientAttr sc L) := by
  unfold applyOrientAttr
  cases tagSlice sc pgSzPat with
  | none => exact h
  | some tag =>
    dsimp only
    cases attrValue tag attrOrient with
    | none => exact h
    | some o =>
      exact ⟨h.1, h.2.1, h.2.2.1, h.2.2.2.1, h.2.2.2.2.1,
        h.2.2.2.2.2.1, h.2.2.2.2.2.2⟩

theorem parseDocumentLayoutSect_pos (content : List Char) :
    layoutPositive (parseDocumentLayoutSect content) := by
  unfold parseDocumentLayoutSect
  cases sectContentOf content with
  | none => exact getDefaultLayout_pos
  | some sc =>
    exact applyOrientAttr_pos _ (applyPgMar_pos _ (applyPgSz_pos _ getDefaultLayout_pos))

theorem orientByRatio_pos {L : DocumentLayout} (h : layoutPositive L) :
    layoutPositive (orientByRatio L) := by
  unfold orientByRatio
  split
  · exact h
  · exact h

/-- C10: every numeric field of the parsed layout is strictly positive;
the twips parser strips sign characters and never returns a negative
number, and `w:top="-1440"` parses as 72 (the absolute value / 20). -/
theorem claim10_positive_geometry :
    (∀ content : List Char, layoutPositive (parseDocumentLayout content)) ∧
    (∀ s : List Char, 0 ≤ parseFloatFromTwips s) ∧
    parseFloatFromTwips ("-1440".toList) = 72 :=
  ⟨fun content => orientByRatio_pos (parseDocumentLayoutSect_pos content),
   parseFloatFromTwips_nonneg, by
    simp +decide [parseFloatFromTwips, twipsFold, twipsDigit]
    norm_num⟩

theorem orientByRatio_numeric (L : DocumentLayout) :
    (orientByRatio L).PageWidth = L.PageWidth ∧
    (orientByRatio L).PageHeight = L.PageHeight ∧
    (orientByRatio L).LeftMargin = L.LeftMargin ∧
    (orientByRatio L).RightMargin = L.RightMargin ∧
    (orientByRatio L).TopMargin = L.TopMargin ∧
    (orientByRatio L).BottomMargin = L.BottomMargin ∧
    (orientByRatio L).LineHeight = L.LineHeight := by
  unfold orientByRatio
  split
  · exact ⟨rfl, rfl, rfl, rfl, rfl, rfl, rfl⟩
  · exact ⟨rfl, rfl, rfl, rfl, rfl, rfl, rfl⟩

theorem orientByRatio_landscape {L : DocumentLayout}
    (hw : 0 < L.PageWidth) (hh : 0 < L.PageHeight) :
    (orientByRatio L).Landscape =
      (L.Landscape || decide (L.PageHeight < L.PageWidth)) := by
  unfold orientByRatio
  cases hL : L.Landscape with
  | false =>
    rw [if_pos ⟨hw, hh, rfl⟩]
    simp
  | true =>
    rw [if_neg (fun hc => absurd hc.2.2 (by decide))]
    rw [hL]
    simp

theorem applyTwipsAttr_eval {tag a s : List Char} {v : ℚ}
    (hv : attrValue tag a = some s) (hp : parseFloatFromTwips s = v)
    (hpos : 0 < v) (cur : ℚ) :
    applyTwipsAttr tag a cur = v := by
  unfold applyTwipsAttr
  rw [hv]
  dsimp only
  rw [hp, if_pos hpos]

theorem sectEval_noorient {c sc tg ws hs : List Char} {w h : ℚ}
    (h1 : sectContentOf c = some sc)
    (h2 : tagSlice sc pgSzPat = some tg)
    (h3 : tagSlice sc pgMarPat = none)
    (h4 : attrValue tg attrW = some ws)
    (h5 : attrValue tg attrH = some hs)
    (h6 : attrValue tg attrOrient = none)
    (h7 : parseFloatFromTwips ws = w)
    (h8 : parseFloatFromTwips hs = h)
    (hw : 0 < w) (hh : 0 < h) :
    parseDocumentLayoutSect c =
      { getDefaultLayout with PageWidth := w, PageHeight := h } := by
  unfold parseDocumentLayoutSect
  rw [h1]
  dsimp only
  unfold layoutFromSect
  have e1 : applyPgSz sc getDefaultLayout =
      { getDefaultLayout with PageWidth := w, PageHeight := h } := by
    unfold applyPgSz
    rw [h2]
    dsimp only
    rw [applyTwipsAttr_eval h4 h7 hw, applyTwipsAttr_eval h5 h8 hh]
  rw [e1]
  have e2 : applyPgMar sc { getDefaultLayout with PageWidth := w, PageHeight := h } =
      { getDefaultLayout with PageWidth := w, PageHeight := h } := by
    unfold applyPgMar
    rw [h3]
  rw [e2]
  unfold applyOrientAttr
  rw [h2]
  dsimp only
  rw [h6]

theorem sectEval_orient {c sc tg ws hs os : List Char} {w h : ℚ}
    (h1 : sectContentOf c = some sc)
    (h2 : tagSlice sc pgSzPat = some tg)
    (h3 : tagSlice sc pgMarPat = none)
    (h4 : attrValue tg attrW = some ws)
    (h5 : attrValue tg attrH = some hs)
    (h6 : attrValue tg attrOrient = some os)
    (h7 : parseFloatFromTwips ws = w)
    (h8 : parseFloatFromTwips hs = h)
    (hw : 0 < w) (hh : 0 < h) :
    parseDocumentLayoutSect c =
      { getDefaultLayout with PageWidth := w, PageHeight := h, Landscape := os == landscapeLit } := by
  unfold parseDocumentLayoutSect
  rw [h1]
  dsimp only
  unfold layoutFromSect
  have e1 : applyPgSz sc getDefaultLayout =
      { getDefaultLayout with PageWidth := w, PageHeight := h } := by
    unfold applyPgSz
    rw [h2]
    dsimp only
    rw [applyTwipsAttr_eval h4 h7 hw, applyTwipsAttr_eval h5 h8 hh]
  rw [e1]
  have e2 : applyPgMar sc { getDefaultLayout with PageWidth := w, PageHeight := h } =
      { getDefaultLayout with PageWidth := w, PageHeight := h } := by
    unfold applyPgMar
    rw [h3]
  rw [e2]
  unfold applyOrientAttr
  rw [h2]
  dsimp only
  rw [h6]

theorem parseLayout_append {content tail : List Char} {s e : Nat}
    (hs : strIndex content sectOpenPat = some s)
    (he : strIndex (content.drop s) sectClosePat = some e) :
    parseDocumentLayout (content ++ tail) = parseDocumentLayout content := by
  have h1 : strIndex (content ++ tail) sectOpenPat = some s := strIndex_append hs
  have hsle : s ≤ content.length := by
    have := strIndex_le hs
    omega
  have hdrop : (content ++ tail).drop s = content.drop s ++ tail :=
    List.drop_append_of_le_length hsle
  have h2 : strIndex ((content ++ tail).drop s) sectClosePat = some e := by
    rw [hdrop]
    exact strIndex_append he
  have hele : e ≤ (content.drop s).length := by
    have := strIndex_le he
    omega
  have hsect : sectContentOf (content ++ tail) = sectContentOf content := by
    unfold sectContentOf
    rw [h1, hs]
    dsimp only
    rw [h2, he]
    dsimp only
    rw [hdrop, List.take_append_of_le_length hele]
  unfold parseDocumentLayout parseDocumentLayoutSect
  rw [hsect]

theorem twipsVal_20000 : parseFloatFromTwips ("20000".toList) = 1000 := by
  simp +decide [parseFloatFromTwips, twipsFold, twipsDigit]
  norm_num

theorem twipsVal_10000 : parseFloatFromTwips ("10000".toList) = 500 := by
  simp +decide [parseFloatFromTwips, twipsFold, twipsDigit]
  norm_num

theorem twipsVal_15840 : parseFloatFromTwips ("15840".toList) = 792 := by
  simp +decide [parseFloatFromTwips, twipsFold, twipsDigit]
  norm_num

theorem twipsVal_12240 : parseFloatFromTwips ("12240".toList) = 612 := by
  simp +decide [parseFloatFromTwips, twipsFold, twipsDigit]
  norm_num

theorem sectOneEx_layout : parseDocumentLayoutSect sectOneEx =
    { getDefaultLayout with PageWidth := 1000, PageHeight := 500 } := by
  have h1 : sectContentOf sectOneEx =
      some ("<w:sectPr><w:pgSz w:w=\"20000\" w:h=\"10000\"/>".toList) := by decide
  have h2 : tagSlice ("<w:sectPr><w:pgSz w:w=\"20000\" w:h=\"10000\"/>".toList) pgSzPat =
      some ("<w:pgSz w:w=\"20000\" w:h=\"10000\"".toList) := by decide
  have h3 : tagSlice ("<w:sectPr><w:pgSz w:w=\"20000\" w:h=\"10000\"/>".toList) pgMarPat =
      none := by decide
  have h4 : attrValue ("<w:pgSz w:w=\"20000\" w:h=\"10000\"".toList) attrW =
      some ("20000".toList) := by decide
  have h5 : attrValue ("<w:pgSz w:w=\"20000\" w:h=\"10000\"".toList) attrH =
      some ("10000".toList) := by decide
  have h6 : attrValue ("<w:pgSz w:w=\"20000\" w:h=\"10000\"".toList) attrOrient =
      none := by decide
  exact sectEval_noorient h1 h2 h3 h4 h5 h6 twipsVal_20000 twipsVal_10000
    (by norm_num) (by norm_num)

theorem sectTwoEx_layout : parseDocumentLayoutSect sectTwoEx =
    { getDefaultLayout with PageWidth := 792, PageHeight := 612 } := by
  have h1 : sectContentOf sectTwoEx =
      some ("<w:sectPr><w:pgSz w:w=\"15840\" w:h=\"12240\"/>".toList) := by decide
  have h2 : tagSlice ("<w:sectPr><w:pgSz w:w=\"15840\" w:h=\"12240\"/>".toList) pgSzPat =
      some ("<w:pgSz w:w=\"15840\" w:h=\"12240\"".toList) := by decide
  have h3 : tagSlice ("<w:sectPr><w:pgSz w:w=\"15840\" w:h=\"12240\"/>".toList) pgMarPat =
      none := by decide
  have h4 : attrValue ("<w:pgSz w:w=\"15840\" w:h=\"12240\"".toList) attrW =
      some ("15840".toList) := by decide
  have h5 : attrValue ("<w:pgSz w:w=\"15840\" w:h=\"12240\"".toList) attrH =
      some ("12240".toList) := by decide
  have h6 : attrValue ("<w:pgSz w:w=\"15840\" w:h=\"12240\"".toList) attrOrient =
      none := by decide
  exact sectEval_noorient h1 h2 h3 h4 h5 h6 twipsVal_15840 twipsVal_12240
    (by norm_num) (by norm_num)

theorem sectPortraitEx_layout : parseDocumentLayoutSect sectPortraitEx =
    { getDefaultLayout with PageWidth := 792, PageHeight := 612, Landscape := ("portrait".toList == landscapeLit) } := by
  have h1 : sectContentOf sectPortraitEx =
      some ("<w:sectPr><w:pgSz w:w=\"15840\" w:h=\"12240\" w:orient=\"portrait\"/>".toList) := by
    decide
  have h2 : tagSlice
      ("<w:sectPr><w:pgSz w:w=\"15840\" w:h=\"12240\" w:orient=\"portrait\"/>".toList) pgSzPat =
      some ("<w:pgSz w:w=\"15840\" w:h=\"12240\" w:orient=\"portrait\"".toList) := by decide
  have h3 : tagSlice
      ("<w:sectPr><w:pgSz w:w=\"15840\" w:h=\"12240\" w:orient=\"portrait\"/>".toList) pgMarPat =
      none := by decide
  have h4 : attrValue ("<w:pgSz w:w=\"15840\" w:h=\"12240\" w:orient=\"portrait\"".toList) attrW =
      some ("15840".toList) := by decide
  have h5 : attrValue ("<w:pgSz w:w=\"15840\" w:h=\"12240\" w:orient=\"portrait\"".toList) attrH =
      some ("12240".toList) := by decide
  have h6 : attrValue
      ("<w:pgSz w:w=\"15840\" w:h=\"12240\" w:orient=\"portrait\"".toList) attrOrient =
      some ("portrait".toList) := by decide
  exact sectEval_orient h1 h2 h3 h4 h5 h6 twipsVal_15840 twipsVal_12240
    (by norm_num) (by norm_num)

/-- C3 (amended): layout analysis derives the page geometry from the
FIRST `<w:sectPr>` block of the document text, not from the last one:
whenever a complete first block (opening marker plus a following
closing marker) is present, appending any further text — in particular
any number of further section blocks — does not change the parsed
layout. -/
theorem claim3_first_block_governs (content tail : List Char) (s e : Nat)
    (hs : strIndex content sectOpenPat = some s)
    (he : strIndex (content.drop s) sectClosePat = some e) :
    parseDocumentLayout (content ++ tail) = parseDocumentLayout content :=
  parseLayout_append hs he

/-- Witness for C3: the amended theorem applied to a concrete complete
first section block followed by a second block. -/
theorem claim3_first_block_governs_witness :
    strIndex sectOneEx sectOpenPat = some 0 ∧
    strIndex (sectOneEx.drop 0) sectClosePat = some 43 ∧
    parseDocumentLayout (sectOneEx ++ sectTwoEx) = parseDocumentLayout sectOneEx :=
  ⟨by decide, by decide,
   claim3_first_block_governs sectOneEx sectTwoEx 0 43 (by decide) (by decide)⟩

/-- C3 counterexample: a document whose first section block says
20000×10000 twips (1000×500 pt) and whose last block says 15840×12240
twips (792×612 pt) parses with page width 1000 — the geometry of the
FIRST block, not of the last block as the claim states (the last block
alone parses to page width 792). -/
theorem claim3_counterexample :
    (parseDocumentLayout (sectOneEx ++ sectTwoEx)).PageWidth = 1000 ∧
    (parseDocumentLayout sectTwoEx).PageWidth = 792 ∧
    (1000 : ℚ) ≠ 792 := by
  have hs0 : strIndex sectOneEx sectOpenPat = some 0 := by decide
  have he0 : strIndex (sectOneEx.drop 0) sectClosePat = some 43 := by decide
  have happ : parseDocumentLayout (sectOneEx ++ sectTwoEx) = parseDocumentLayout sectOneEx :=
    parseLayout_append hs0 he0
  refine ⟨?_, ?_, by norm_num⟩
  · rw [happ]
    have h1 : (parseDocumentLayout sectOneEx).PageWidth =
        (parseDocumentLayoutSect sectOneEx).PageWidth :=
      (orientByRatio_numeric (parseDocumentLayoutSect sectOneEx)).1
    rw [h1, sectOneEx_layout]
  · have h1 : (parseDocumentLayout sectTwoEx).PageWidth =
        (parseDocumentLayoutSect sectTwoEx).PageWidth :=
      (orientByRatio_numeric (parseDocumentLayoutSect sectTwoEx)).1
    rw [h1, sectTwoEx_layout]

/-- C4 (amended): an explicit `w:orient` attribute sets the landscape
flag (true exactly when its value is `landscape`), but it is
authoritative only towards landscape: whenever the flag is false after
attribute handling — including an explicit `orient="portrait"` — and
the parsed width exceeds the parsed height, the final inference
overrides the flag to landscape.  With no orient attribute, landscape
holds exactly when width exceeds height; in particular the spec's
example `w:w="15840" w:h="12240"` with no orient yields landscape. -/
theorem claim4_orientation :
    (∀ content : List Char,
      (parseDocumentLayout content).Landscape =
        ((parseDocumentLayoutSect content).Landscape ||
          decide ((parseDocumentLayoutSect content).PageHeight <
            (parseDocumentLayoutSect content).PageWidth))) ∧
    (parseDocumentLayout sectTwoEx).Landscape = true := by
  constructor
  · intro content
    have h := parseDocumentLayoutSect_pos content
    exact orientByRatio_landscape h.1 h.2.1
  · show (orientByRatio (parseDocumentLayoutSect sectTwoEx)).Landscape = true
    rw [sectTwoEx_layout, orientByRatio_landscape (by decide) (by decide)]
    decide

/-- C4 counterexample: with `w:orient="portrait"` and w:w=15840 >
w:h=12240 the attribute stage sets the flag to false (portrait), but
the final width/height inference overrides it, so the parsed layout is
landscape — refuting "orient=portrait yields landscape = false even
when width > height". -/
theorem claim4_counterexample :
    (parseDocumentLayoutSect sectPortraitEx).Landscape = false ∧
    (parseDocumentLayout sectPortraitEx).Landscape = true := by
  constructor
  · rw [sectPortraitEx_layout]
    decide
  · show (orientByRatio (parseDocumentLayoutSect sectPortraitEx)).Landscape = true
    rw [sectPortraitEx_layout, orientByRatio_landscape (by decide) (by decide)]
    decide

theorem findContainingParagraph_X (c : List Char) (p : Nat) :
    (findContainingParagraph c p).X = 0 := by
  unfold findContainingParagraph
  dsimp only
  split <;> rfl

theorem findContainingParagraph_line_pos (c : List Char) (p : Nat) :
    1 ≤ (findContainingParagraph c p).LineNumber := by
  unfold findContainingParagraph
  dsimp only
  split <;> (dsimp only; split <;> omega)

/-- C8: the coordinate mapper computes x = leftMargin,
y_raw = topMargin + (line-1)*lineHeight,
page = floor(y_raw/pageHeight) + 1 clamped to a minimum of 1, and
y = y_raw - (page-1)*pageHeight, for every (nonnegative-margin,
positive-page-height) layout and raw offset. -/
theorem claim8_coordinates (xml : List Char) (pos : Nat) (L : DocumentLayout)
    (h1 : 0 ≤ L.TopMargin) (h2 : 0 ≤ L.LineHeight) (h3 : 0 < L.PageHeight) :
    (calculateCoordinates xml pos L).1 = L.LeftMargin ∧
    (calculateCoordinates xml pos L).2.2.1 = specPageOf xml pos L ∧
    (calculateCoordinates xml pos L).2.1 =
      specYRaw xml pos L - ((specPageOf xml pos L : ℚ) - 1) * L.PageHeight ∧
    (calculateCoordinates xml pos L).2.2.2 =
      (findContainingParagraph xml pos).ParagraphId := by
  have hl := findContainingParagraph_line_pos xml pos
  have hX := findContainingParagraph_X xml pos
  have hY0 : 0 ≤ specYRaw xml pos L := by
    unfold specYRaw
    have hc : (1 : ℚ) ≤ ((findContainingParagraph xml pos).LineNumber : ℚ) := by
      exact_mod_cast hl
    have := mul_nonneg (by linarith :
      (0 : ℚ) ≤ ((findContainingParagraph xml pos).LineNumber : ℚ) - 1) h2
    linarith
  have hq0 : 0 ≤ specYRaw xml pos L / L.PageHeight := div_nonneg hY0 h3.le
  have hfl0 : 0 ≤ ⌊specYRaw xml pos L / L.PageHeight⌋ := Int.floor_nonneg.mpr hq0
  have htr : truncQ (specYRaw xml pos L / L.PageHeight) =
      ⌊specYRaw xml pos L / L.PageHeight⌋ := by
    unfold truncQ
    rw [if_pos hq0]
  have hpg : specPageOf xml pos L = ⌊specYRaw xml pos L / L.PageHeight⌋ + 1 := by
    unfold specPageOf
    omega
  unfold calculateCoordinates
  unfold specYRaw at htr hpg ⊢
  dsimp only
  rw [htr, hpg]
  have hclamp : (if ⌊(L.TopMargin +
        (((findContainingParagraph xml pos).LineNumber : ℚ) - 1) * L.LineHeight) /
        L.PageHeight⌋ + 1 < 1 then (1 : ℤ) else
      ⌊(L.TopMargin +
        (((findContainingParagraph xml pos).LineNumber : ℚ) - 1) * L.LineHeight) /
        L.PageHeight⌋ + 1) =
      ⌊(L.TopMargin +
        (((findContainingParagraph xml pos).LineNumber : ℚ) - 1) * L.LineHeight) /
        L.PageHeight⌋ + 1 := by
    rw [if_neg]
    unfold specYRaw at hfl0
    omega
  rw [hclamp]
  refine ⟨?_, rfl, rfl, rfl⟩
  rw [hX]
  ring

/-- Witness for C8: the default layout (72pt top margin, 14.4pt line
height) with a token in the third paragraph gives
y_raw = 72 + 2*14.4 = 100.8 = 504/5, on page 1. -/
theorem claim8_coordinates_witness :
    (0 : ℚ) ≤ getDefaultLayout.TopMargin ∧
    (0 : ℚ) ≤ getDefaultLayout.LineHeight ∧
    (0 : ℚ) < getDefaultLayout.PageHeight ∧
    (findContainingParagraph paraThreeEx 24).LineNumber = 3 ∧
    specYRaw paraThreeEx 24 getDefaultLayout = 504 / 5 ∧
    ((calculateCoordinates paraThreeEx 24 getDefaultLayout).1 =
        getDefaultLayout.LeftMargin ∧
      (calculateCoordinates paraThreeEx 24 getDefaultLayout).2.2.1 =
        specPageOf paraThreeEx 24 getDefaultLayout ∧
      (calculateCoordinates paraThreeEx 24 getDefaultLayout).2.1 =
        specYRaw paraThreeEx 24 getDefaultLayout -
          ((specPageOf paraThreeEx 24 getDefaultLayout : ℚ) - 1) *
            getDefaultLayout.PageHeight ∧
      (calculateCoordinates paraThreeEx 24 getDefaultLayout).2.2.2 =
        (findContainingParagraph paraThreeEx 24).ParagraphId) :=
  ⟨by decide, by norm_num [getDefaultLayout], by decide,
   by decide,
   by
    have h3 : (findContainingParagraph paraThreeEx 24).LineNumber = 3 := by decide
    unfold specYRaw
    rw [h3]
    norm_num [getDefaultLayout],
   claim8_coordinates paraThreeEx 24 getDefaultLayout (by decide)
     (by norm_num [getDefaultLayout]) (by decide)⟩

theorem checkAux_snd_le (content ph : List Char) (s : Nat) :
    ∀ fuel pos idx t, pos ≤ s + ph.length * 10 →
      (checkAux fuel content ph s pos idx t).2 ≤ s + ph.length * 10 := by
  intro fuel
  induction fuel with
  | zero =>
    intro pos idx t h
    simpa [checkAux] using h
  | succ f ih =>
    intro pos idx t h
    unfold checkAux
    split
    · split
      · split
        · simp
        · exact ih (pos + 1) idx true (by omega)
      · split
        · split
          · simp
          · exact ih (pos + 1) idx false (by omega)
        · split
          · split
            · simp
            · exact ih (pos + 1) idx t (by omega)
          · split
            · split
              · simp
              · exact ih (pos + 1) (idx + 1) t (by omega)
            · simp
    · exact h

/-- C6: a tag-aware match attempt never consumes more than ten times
the token's length: the loop of `checkXMLSafeMatch` abandons the
attempt (returning no-match at the original position, so the scan of
`replaceXMLSafeSlow` copies one character and continues) as soon as
the characters consumed exceed `10 * |token|`, so the end position it
reports never exceeds `startPos + 10 * |token|`. -/
theorem claim6_bounded_scan (content : List Char) (startPos : Nat) (ph : List Char) :
    (checkXMLSafeMatch content startPos ph).2 ≤ startPos + 10 * ph.length := by
  unfold checkXMLSafeMatch
  split
  · simp
  · have := checkAux_snd_le content ph startPos (content.length + 1) startPos 0 false
      (by omega)
    omega

theorem dedupGo_eq_foldl (l : List (List Char)) :
    ∀ acc seen, (∀ x, x ∈ seen ↔ x ∈ acc) →
      dedupGo l acc seen =
        l.foldl (fun a x => if x ∈ a then a else a ++ [x]) acc := by
  induction l with
  | nil => intro acc seen _; rfl
  | cons p rest ih =>
    intro acc seen hinv
    by_cases hp : p ∈ seen
    · rw [dedupGo, if_pos hp]
      rw [List.foldl_cons, if_pos ((hinv p).mp hp)]
      exact ih acc seen hinv
    · rw [dedupGo, if_neg hp]
      rw [List.foldl_cons, if_neg (fun hc => hp ((hinv p).mpr hc))]
      refine ih (acc ++ [p]) (p :: seen) ?_
      intro x
      rw [List.mem_cons, List.mem_append, List.mem_singleton, hinv x]
      tauto

theorem foldl_dedup_nodup (l : List (List Char)) :
    ∀ acc : List (List Char), acc.Nodup →
      (l.foldl (fun a x => if x ∈ a then a else a ++ [x]) acc).Nodup := by
  induction l with
  | nil => intro acc h; exact h
  | cons p rest ih =>
    intro acc h
    rw [List.foldl_cons]
    by_cases hp : p ∈ acc
    · rw [if_pos hp]
      exact ih acc h
    · rw [if_neg hp]
      refine ih (acc ++ [p]) ?_
      simp [List.nodup_append, h, hp]

/-- C9: `ExtractPlaceholders` returns the token literals with
duplicates removed, preserving first-occurrence order (it equals the
straightforward first-occurrence fold and its result has no
duplicates); on a text containing `{{a}} {{b}} {{a}}` the result is
exactly `["{{a}}", "{{b}}"]`. -/
theorem claim9_dedup_order :
    (∀ content : List Char,
      extractPlaceholders content =
        specDedupFirstOccurrence
          ((extractPlaceholdersWithPositions content).map (·.Placeholder)) ∧
      (extractPlaceholders content).Nodup) ∧
    extractPlaceholders dupTokensEx = [tokenAEx, tokenBEx] := by
  constructor
  · intro content
    have he : extractPlaceholders content =
        specDedupFirstOccurrence
          ((extractPlaceholdersWithPositions content).map (·.Placeholder)) := by
      unfold extractPlaceholders specDedupFirstOccurrence
      exact dedupGo_eq_foldl _ [] [] (by simp)
    refine ⟨he, ?_⟩
    rw [he]
    unfold specDedupFirstOccurrence
    exact foldl_dedup_nodup _ [] List.nodup_nil
  · decide

theorem scanAux_mem :
    ∀ (fuel : Nat) (clean : List Char) (cs s e : Nat),
      (s, e) ∈ scanAux fuel clean cs →
      s < e ∧ openBraces.isPrefixOf (clean.drop s) = true ∧
      closeBraces.isPrefixOf (clean.drop (e - 2)) = true ∧
      ∀ k, s ≤ k → k < e - 2 → closeBraces.isPrefixOf (clean.drop k) = false := by
  intro fuel
  induction fuel with
  | zero => intro clean cs s e h; simp [scanAux] at h
  | succ f ih =>
    intro clean cs s e h
    rw [scanAux] at h
    match hi : strIndex (clean.drop cs) openBraces with
    | none => rw [hi] at h; simp at h
    | some i =>
      rw [hi] at h
      dsimp only at h
      match hj : strIndex (clean.drop (cs + i)) closeBraces with
      | none => rw [hj] at h; simp at h
      | some j =>
        rw [hj] at h
        dsimp only at h
        rcases List.mem_cons.mp h with heq | hmem
        · have hs : s = cs + i := congrArg Prod.fst heq
          have he : e = cs + i + j + 2 := congrArg Prod.snd heq
          subst hs
          subst he
          refine ⟨by omega, ?_, ?_, ?_⟩
          · have hp := strIndex_isPrefixOf hi
            rw [List.drop_drop] at hp
            exact hp
          · have hp := strIndex_isPrefixOf hj
            rw [List.drop_drop] at hp
            have h2 : cs + i + j + 2 - 2 = cs + i + j := by omega
            rw [h2]
            exact hp
          · intro k hk1 hk2
            have hp := strIndex_min hj (k - (cs + i)) (by omega)
            rw [List.drop_drop] at hp
            have h2 : cs + i + (k - (cs + i)) = k := by omega
            rw [h2] at hp
            exact hp
        · exact ih clean _ s e hmem

/-- C7 (amended): every token produced by the scanner satisfies
start < end, begins with `{{`, ends with `}}`, and its closing braces
are the EARLIEST `}}` at or after its start (no `}}` occurs strictly
before the token's final two characters).  The original non-nesting
property — no `{{` strictly inside — does not hold (see the
counterexample). -/
theorem claim7_token_invariant (clean : List Char) (s e : Nat)
    (h : (s, e) ∈ scanTokens clean) :
    s < e ∧ openBraces.isPrefixOf (clean.drop s) = true ∧
    closeBraces.isPrefixOf (clean.drop (e - 2)) = true ∧
    ∀ k, s ≤ k → k < e - 2 → closeBraces.isPrefixOf (clean.drop k) = false :=
  scanAux_mem (clean.length + 1) clean 0 s e h

/-- Witness for C7: the scanner on `{{x}}` produces the token (0, 5),
which satisfies the amended invariant. -/
theorem claim7_token_invariant_witness :
    (0, 5) ∈ scanTokens singleTokenEx ∧
    (0 < 5 ∧ openBraces.isPrefixOf (singleTokenEx.drop 0) = true ∧
      closeBraces.isPrefixOf (singleTokenEx.drop (5 - 2)) = true ∧
      ∀ k, 0 ≤ k → k < 5 - 2 →
        closeBraces.isPrefixOf (singleTokenEx.drop k) = false) :=
  ⟨by decide, claim7_token_invariant singleTokenEx 0 5 (by decide)⟩

/-- C7 counterexample: on clean text `{{a{{b}}` the scanner emits the
single token `{{a{{b}}` spanning [0, 8), whose literal contains `{{`
at offset 3 — strictly after its opening braces (3 ≥ 2) and strictly
before its closing braces (3 + 2 ≤ 8 - 2) — so braces are NOT
non-nesting as claimed. -/
theorem claim7_counterexample :
    (extractPlaceholdersWithPositions nestedBracesEx).map
        (fun p => (p.Placeholder, p.StartPos, p.EndPos)) =
      [(nestedBracesEx, 0, 8)] ∧
    openBraces.isPrefixOf (nestedBracesEx.drop 3) = true ∧
    2 ≤ 3 ∧ 3 + 2 ≤ 8 - 2 := by
  refine ⟨by decide, by decide, by omega, by omega⟩

theorem isPrefixOf_nil_right {p : List Char} (h : p ≠ []) :
    p.isPrefixOf [] = false := by
  cases p with
  | nil => exact absurd rfl h
  | cons a as => rfl

theorem isPrefixOf_cons_cons (a b : Char) (as bs : List Char) :
    (a :: as).isPrefixOf (b :: bs) = (a == b && as.isPrefixOf bs) := rfl

theorem checkAux_notags (content ph : List Char)
    (hc : ∀ ch ∈ content, ch ≠ '<' ∧ ch ≠ '>') (hph : ph ≠ []) :
    ∀ fuel s pos idx,
      idx ≤ ph.length → pos = s + idx → content.length < pos + fuel →
      ((checkAux fuel content ph s pos idx false).1 =
        (ph.drop idx).isPrefixOf (content.drop pos)) ∧
      ((ph.drop idx).isPrefixOf (content.drop pos) = true →
        checkAux fuel content ph s pos idx false = (true, s + ph.length)) := by
  have hL : 1 ≤ ph.length := List.length_pos.mpr hph
  intro fuel
  induction fuel with
  | zero =>
    intro s pos idx hidx hpos hlen
    have hd : content.drop pos = [] := List.drop_eq_nil_of_le (by omega)
    rcases Nat.lt_or_ge idx ph.length with hlt | hge
    · have hne : ph.drop idx ≠ [] := by
        intro hnil
        have := List.drop_eq_nil_iff.mp hnil
        omega
      rw [hd, isPrefixOf_nil_right hne]
      constructor
      · simp [checkAux]
        omega
      · intro hfalse
        cases hfalse
    · have hidx2 : idx = ph.length := by omega
      subst hidx2
      rw [hd, List.drop_length]
      constructor
      · simp [checkAux]
      · intro _
        simp [checkAux]
        omega
  | succ f ih =>
    intro s pos idx hidx hpos hlen
    by_cases hcond : pos < content.length ∧ idx < ph.length
    · have hchar := hc (content.get ⟨pos, hcond.1⟩) (content.get_mem _ _)
      have hdropc : content.drop pos =
          content.get ⟨pos, hcond.1⟩ :: content.drop (pos + 1) := by
        rw [List.drop_eq_getElem_cons hcond.1]
        rfl
      have hdropp : ph.drop idx = ph.get ⟨idx, hcond.2⟩ :: ph.drop (idx + 1) := by
        rw [List.drop_eq_getElem_cons hcond.2]
        rfl
      rw [checkAux, dif_pos hcond, if_neg hchar.1, if_neg hchar.2, if_neg Bool.false_ne_true]
      by_cases heq : content.get ⟨pos, hcond.1⟩ = ph.get ⟨idx, hcond.2⟩
      · rw [if_pos heq, if_neg (by omega : ¬ph.length * 10 < pos + 1 - s)]
        have hih := ih s (pos + 1) (idx + 1) (by omega) (by omega) (by omega)
        have hpre : (ph.drop idx).isPrefixOf (content.drop pos) =
            (ph.drop (idx + 1)).isPrefixOf (content.drop (pos + 1)) := by
          rw [hdropc, hdropp, isPrefixOf_cons_cons]
          have hbeq : (ph.get ⟨idx, hcond.2⟩ == content.get ⟨pos, hcond.1⟩) = true := by
            simpa using heq.symm
          rw [hbeq, Bool.true_and]
        rw [hpre]
        exact hih
      · rw [if_neg heq]
        have hpre : (ph.drop idx).isPrefixOf (content.drop pos) = false := by
          rw [hdropc, hdropp, isPrefixOf_cons_cons]
          have hbeq : (ph.get ⟨idx, hcond.2⟩ == content.get ⟨pos, hcond.1⟩) = false := by
            simp only [beq_eq_false_iff_ne, ne_eq]
            intro hx
            exact heq hx.symm
          rw [hbeq, Bool.false_and]
        rw [hpre]
        constructor
        · rfl
        · intro hfalse
          cases hfalse
    · rw [checkAux, dif_neg hcond]
      rcases Nat.lt_or_ge idx ph.length with hlt | hge
      · have hplen : content.length ≤ pos := by
          rcases Nat.lt_or_ge pos content.length with h1 | h2
          · exact absurd ⟨h1, hlt⟩ hcond
          · exact h2
        have hd : content.drop pos = [] := List.drop_eq_nil_of_le hplen
        have hne : ph.drop idx ≠ [] := by
          intro hnil
          have := List.drop_eq_nil_iff.mp hnil
          omega
        rw [hd, isPrefixOf_nil_right hne]
        constructor
        · simp
          omega
        · intro hfalse
          cases hfalse
      · have hidx2 : idx = ph.length := by omega
        subst hidx2
        rw [List.drop_length]
        constructor
        · simp
        · intro _
          simp
          omega

theorem checkXMLSafeMatch_notags (content ph : List Char)
    (hc : ∀ ch ∈ content, ch ≠ '<' ∧ ch ≠ '>') (hph : ph ≠ []) (s : Nat) :
    ((checkXMLSafeMatch content s ph).1 = ph.isPrefixOf (content.drop s)) ∧
    (ph.isPrefixOf (content.drop s) = true →
      checkXMLSafeMatch content s ph = (true, s + ph.length)) := by
  unfold checkXMLSafeMatch
  split
  · have hd : content.drop s = [] := List.drop_eq_nil_of_le (by omega)
    rw [hd, isPrefixOf_nil_right hph]
    exact ⟨rfl, fun hfalse => by cases hfalse⟩
  · have h := checkAux_notags content ph hc hph (content.length + 1) s s 0
      (Nat.zero_le _) (by omega) (by omega)
    simpa using h

theorem rxsAux_notags (content ph v : List Char)
    (hc : ∀ ch ∈ content, ch ≠ '<' ∧ ch ≠ '>') (hph : ph ≠ []) :
    ∀ fuel fuel' i, content.length < i + fuel →
      (content.drop i).length < fuel' →
      rxsAux fuel content ph v i = replaceAllAux fuel' (content.drop i) ph v := by
  have hL : 1 ≤ ph.length := List.length_pos.mpr hph
  intro fuel
  induction fuel with
  | zero =>
    intro fuel' i h1 h2
    have hd : content.drop i = [] := List.drop_eq_nil_of_le (by omega)
    rw [hd]
    cases fuel' with
    | zero => simp [rxsAux, replaceAllAux]
    | succ f' => simp [rxsAux, replaceAllAux]
  | succ f ih =>
    intro fuel' i h1 h2
    by_cases hi : i < content.length
    · have hdc : content.drop i =
          content.get ⟨i, hi⟩ :: content.drop (i + 1) := by
        rw [List.drop_eq_getElem_cons hi]
        rfl
      cases fuel' with
      | zero =>
        exact absurd h2 (by omega)
      | succ f' =>
        have hm := checkXMLSafeMatch_notags content ph hc hph i
        have hlen1 : (content.drop i).length = content.length - i :=
          List.length_drop i content
        cases hp : ph.isPrefixOf (content.drop i) with
        | true =>
          have hm2 := hm.2 hp
          have hp2 : ph.isPrefixOf
              (content.get ⟨i, hi⟩ :: content.drop (i + 1)) = true := by
            rw [← hdc]
            exact hp
          rw [rxsAux, dif_pos hi, hm2]
          dsimp only
          rw [hdc, replaceAllAux]
          rw [if_pos hp2]
          have hdrop2 : (content.get ⟨i, hi⟩ :: content.drop (i + 1)).drop ph.length =
              content.drop (i + ph.length) := by
            rw [← hdc, List.drop_drop]
            try rw [Nat.add_comm]
          rw [hdrop2]
          have hrec := ih f' (i + ph.length) (by omega) (by
            have e2 : (content.drop (i + ph.length)).length =
                content.length - (i + ph.length) := List.length_drop _ content
            omega)
          rw [hrec, if_pos rfl]
        | false =>
          have hm1 : (checkXMLSafeMatch content i ph).1 = false := by
            rw [hm.1, hp]
          have hp2 : ph.isPrefixOf
              (content.get ⟨i, hi⟩ :: content.drop (i + 1)) = false := by
            rw [← hdc]
            exact hp
          rw [rxsAux, dif_pos hi, hm1, if_neg Bool.false_ne_true]
          rw [hdc, replaceAllAux]
          rw [if_neg (by rw [hp2]; exact Bool.false_ne_true)]
          have hrec := ih f' (i + 1) (by omega) (by
            have e2 : (content.drop (i + 1)).length =
                content.length - (i + 1) := List.length_drop _ content
            omega)
          rw [hrec]
    · have hd : content.drop i = [] := List.drop_eq_nil_of_le (by omega)
      rw [rxsAux, dif_neg hi, hd]
      cases fuel' with
      | zero => simp [replaceAllAux]
      | succ f' => simp [replaceAllAux]

/-- C5 (amended): the direct verbatim path (`strings.ReplaceAll`) and
the tag-aware character-by-character path produce identical output on
markup-free content (no `<` or `>` characters); in the presence of
markup the two paths genuinely differ (see the counterexample). -/
theorem claim5_paths_agree (content ph v : List Char) (hph : ph ≠ [])
    (hc : ∀ ch ∈ content, ch ≠ '<' ∧ ch ≠ '>') :
    replaceAll content ph v = replaceXMLSafeSlow content ph v := by
  have hne : ¬ph.isEmpty = true := by
    simpa [ List.isEmpty_iff] using hph
  unfold replaceAll replaceXMLSafeSlow
  rw [if_neg hne, if_neg hne]
  have h := rxsAux_notags content ph v hc hph (content.length + 1)
    (content.length + 1) 0 (by omega) (by rw [List.drop_zero]; omega)
  rw [List.drop_zero] at h
  exact h.symm

/-- Witness for C5: both paths send `ab cd cd e` with token `cd` and
value `X` to `ab X X e`. -/
theorem claim5_paths_agree_witness :
    ("cd".toList ≠ ([] : List Char)) ∧
    (∀ ch ∈ "ab cd cd e".toList, ch ≠ '<' ∧ ch ≠ '>') ∧
    replaceAll ("ab cd cd e".toList) ("cd".toList) ("X".toList) =
      replaceXMLSafeSlow ("ab cd cd e".toList) ("cd".toList) ("X".toList) :=
  ⟨by decide, by decide, claim5_paths_agree _ _ _ (by decide) (by decide)⟩

/-- C5 counterexample: the token `ab` occurs verbatim (unsplit) in
`<t>ab</t>`, so `replaceWithXMLHandling` takes the direct path, which
yields `<t>X</t>`; the tag-aware path on the same input yields `X</t>`
(its match starting at offset 0 skips over and swallows the `<t>`
tag), so the two paths are not behaviorally equivalent. -/
theorem claim5_counterexample :
    strContains ("<t>ab</t>".toList) ("ab".toList) = true ∧
    replaceWithXMLHandling ("<t>ab</t>".toList) ("ab".toList) ("X".toList) =
      replaceAll ("<t>ab</t>".toList) ("ab".toList) ("X".toList) ∧
    replaceAll ("<t>ab</t>".toList) ("ab".toList) ("X".toList) =
      "<t>X</t>".toList ∧
    replaceXMLSafeSlow ("<t>ab</t>".toList) ("ab".toList) ("X".toList) =
      "X</t>".toList := by
  refine ⟨by decide, by decide, by decide, by decide⟩

/-- C1: `extractFile` performs no path-containment check of any kind;
for the stored entry name `../../evil` the write path it computes,
`filepath.Join(tempDir, name)`, resolves to `../evil` — outside the
workspace root — and the entry is written there rather than rejected
(evidence for the code-bug verdict: the zip-slip invariant the spec
demands is absent from the code). -/
theorem claim1_zip_slip_written :
    extractFileTarget ["temp_docx_1"] ["..", "..", "evil"] = ["..", "evil"] ∧
    insideRoot ["temp_docx_1"]
      (extractFileTarget ["temp_docx_1"] ["..", "..", "evil"]) = false := by
  refine ⟨by decide, by decide⟩

/-- C2: when `UnzipDocx` fails after the zip has been opened (so the
temp directory has been created and partially populated — here the
single entry fails to extract), `ProcessDocument` returns before
`defer proc.Cleanup()` is registered and the workspace is left on
disk; after a successful unzip every exit path cleans up (evidence for
the code-bug verdict). -/
theorem claim2_workspace_leak :
    processDocumentLeavesTempDir true [false] true = true ∧
    processDocumentLeavesTempDir true [true] true = false ∧
    processDocumentLeavesTempDir true [true] false = false := by
  refine ⟨by decide, by decide, by decide⟩
